import Mathlib

/-!
Shallow embedding of `offset_tmp_subs.py`, a tool that shifts TMPlayer
subtitle timestamps by a fixed number of seconds.

Strings are modelled as `List Char`.  Python's floor division `//` and
modulo `%` are modelled by `Int.fdiv` and `Int.fmod`.  Regular-expression
matching is modelled by deterministic matcher functions: each of the
patterns in the source (`SUBTITLE_LINE_PATTERN`, `TIMESTAMP_PATTERN`, and
the three `OFFSET_TIME_PATTERNS`) consists of fixed-width pieces, `[:=]`,
`[-+]?` and greedy `\d+`/`.*` groups whose maximal munch is forced (a
shorter munch of `\d+` leaves a digit where `:` must match), so the
matchers below compute exactly the unique match of the Python regexes.
Functions that can raise in Python return `Option`.
-/

/-- Strings of the embedded program: sequences of characters. -/
abbrev Str := List Char

/-- Conversion from Lean string literals, for concrete test inputs. -/
def strL (s : String) : Str := s.data

/-- Numeric value of a decimal digit character (Python `int` on one char). -/
def digitToNat (c : Char) : Nat := c.toNat - 48

/-- Python `int()` on a string of decimal digits. -/
def parseNat (s : Str) : Nat := s.foldl (fun acc c => acc * 10 + digitToNat c) 0

/-- Python `int()` on a string matching `[-+]?\d+`. -/
def parseInt (s : Str) : Int :=
  match s with
  | [] => (parseNat s : Int)
  | c :: rest =>
    if c = '-' then -(parseNat rest : Int)
    else if c = '+' then (parseNat rest : Int)
    else (parseNat s : Int)

/-- Decimal digit string of a natural number, with explicit fuel so that the
recursion is structural (Python `str` on a non-negative int). -/
def natDigitsAux : Nat → Nat → Str
  | 0, _ => []
  | fuel + 1, n =>
    if n < 10 then [Char.ofNat (48 + n)]
    else natDigitsAux fuel (n / 10) ++ [Char.ofNat (48 + n % 10)]

/-- Decimal digit string of a natural number (Python `str`). -/
def natDigits (n : Nat) : Str := natDigitsAux (n + 1) n

/-- Left-pad a string with `'0'` to width `w` (Python zero padding). -/
def padZeros (w : Nat) (s : Str) : Str := List.replicate (w - s.length) '0' ++ s

/-- Python's `02d` format: decimal rendering of an integer, zero padded to
a minimum total width of 2 (the sign, when present, counts toward the
width). -/
def fmt02 (n : Int) : Str :=
  if n < 0 then '-' :: padZeros 1 (natDigits (-n).toNat)
  else padZeros 2 (natDigits n.toNat)

/-- The f-string of `offset_timestamp`: hour, minute and second in `02d`
format, joined by colons. -/
def renderTimestamp (hour minute second : Int) : Str :=
  fmt02 hour ++ ':' :: fmt02 minute ++ ':' :: fmt02 second

/-- Matcher of `TIMESTAMP_PATTERN = (\d+):(\d\d):(\d\d)` used with
`re.match` (anchored at the start, trailing text ignored); returns the three
digit groups. -/
def timestampMatch (ts : Str) : Option (Str × Str × Str) :=
  let hd := ts.takeWhile Char.isDigit
  match ts.dropWhile Char.isDigit with
  | a :: c1 :: c2 :: b :: c3 :: c4 :: _ =>
    if hd ≠ [] && a = ':' && c1.isDigit && c2.isDigit && b = ':' &&
        c3.isDigit && c4.isDigit then
      some (hd, [c1, c2], [c3, c4])
    else none
  | _ => none

/-- Matcher of `SUBTITLE_LINE_PATTERN = (\d+:\d\d:\d\d)([:=])(.*)` used with
`re.match`; returns the timestamp text, the separator character, and the
content group (`.` does not match a newline, so the content group stops at
the first `'\n'`). -/
def subtitleLineMatch (line : Str) : Option (Str × Char × Str) :=
  let hd := line.takeWhile Char.isDigit
  match line.dropWhile Char.isDigit with
  | a :: c1 :: c2 :: b :: c3 :: c4 :: sep :: tail =>
    if hd ≠ [] && a = ':' && c1.isDigit && c2.isDigit && b = ':' &&
        c3.isDigit && c4.isDigit && (sep = ':' || sep = '=') then
      some (hd ++ ':' :: c1 :: c2 :: ':' :: c3 :: [c4], sep,
        tail.takeWhile (fun c => c ≠ '\n'))
    else none
  | _ => none

/-- Python `s.startswith('-')`: the string is nonempty and its first
character is `'-'`. -/
def startsWithDash (s : Str) : Bool :=
  match s with
  | c :: _ => c = '-'
  | [] => false

/-- Embedding of `offset_timestamp`: re-parse the timestamp, flatten to
total seconds, add the offset, split back with floor division and modulo,
render.  `none` models the `AttributeError` raised when
`TIMESTAMP_PATTERN.match` returns `None`. -/
def offset_timestamp (timestamp : Str) (seconds : Int) : Option Str :=
  (timestampMatch timestamp).map fun g =>
    let total : Int :=
      (parseNat g.1 : Int) * 60 * 60 + (parseNat g.2.1 : Int) * 60 +
        (parseNat g.2.2 : Int) + seconds
    let second := total.fmod 60
    let total_minutes := total.fdiv 60
    let minute := total_minutes.fmod 60
    let hour := total_minutes.fdiv 60
    renderTimestamp hour minute second

/-- Embedding of `offset_line`: split the line into timestamp, separator and
content, offset the timestamp, reassemble.  `none` models the
`AttributeError` raised when `SUBTITLE_LINE_PATTERN.match` returns `None`. -/
def offset_line (line : Str) (seconds : Int) : Option Str :=
  (subtitleLineMatch line).bind fun g =>
    (offset_timestamp g.1 seconds).map fun fixed_timestamp =>
      fixed_timestamp ++ g.2.1 :: g.2.2

/-- Embedding of the generator `offset_subtitles`: transform each line in
order and drop the ones whose transformed form starts with `'-'`;
`none` when some line makes `offset_line` raise. -/
def offset_subtitles (lines : List Str) (seconds : Int) : Option (List Str) :=
  match lines with
  | [] => some []
  | line :: rest =>
    (offset_line line seconds).bind fun fixed_line =>
      (offset_subtitles rest seconds).map fun out =>
        if startsWithDash fixed_line then out else fixed_line :: out

/-- Matcher of `OFFSET_TIME_PATTERNS['ONLY SECONDS'] = [-+]?\d+` used with
`re.fullmatch`. -/
def onlySecondsMatch (s : Str) : Bool :=
  match s with
  | [] => false
  | c :: rest =>
    if c = '-' || c = '+' then !rest.isEmpty && rest.all Char.isDigit
    else (c :: rest).all Char.isDigit

/-- The optional sign group `([-+])?`: split a leading `+` or `-` off. -/
def signSplit (s : Str) : Option Char × Str :=
  match s with
  | [] => (none, s)
  | c :: rest => if c = '-' || c = '+' then (some c, rest) else (none, s)

/-- Matcher of `OFFSET_TIME_PATTERNS['WITH MINUTES'] = ([-+])?(\d\d):(\d\d)`
used with `re.fullmatch`; returns the sign group and the two digit groups. -/
def withMinutesMatch (s : Str) : Option (Option Char × Str × Str) :=
  match signSplit s with
  | (sg, [c1, c2, b, c3, c4]) =>
    if c1.isDigit && c2.isDigit && b = ':' && c3.isDigit && c4.isDigit then
      some (sg, [c1, c2], [c3, c4])
    else none
  | _ => none

/-- Matcher of
`OFFSET_TIME_PATTERNS['WITH HOURS'] = ([-+])?(\d+):(\d\d):(\d\d)`
used with `re.fullmatch`; returns the sign group and the three digit
groups. -/
def withHoursMatch (s : Str) : Option (Option Char × Str × Str × Str) :=
  let p := signSplit s
  let hd := p.2.takeWhile Char.isDigit
  match p.2.dropWhile Char.isDigit with
  | [a, c1, c2, b, c3, c4] =>
    if hd ≠ [] && a = ':' && c1.isDigit && c2.isDigit && b = ':' &&
        c3.isDigit && c4.isDigit then
      some (p.1, hd, [c1, c2], [c3, c4])
    else none
  | _ => none

/-- Embedding of `total_seconds` (the offset parser): try the three grammars
in order, `none` models the `ValueError` raised when none matches. -/
def total_seconds (offset_string : Str) : Option Int :=
  if onlySecondsMatch offset_string then
    some (parseInt offset_string)
  else
    match withMinutesMatch offset_string with
    | some g =>
      let sign : Int := if g.1 = some '-' then -1 else 1
      some (((parseNat g.2.1 : Int) * 60 + (parseNat g.2.2 : Int)) * sign)
    | none =>
      match withHoursMatch offset_string with
      | some g =>
        let sign : Int := if g.1 = some '-' then -1 else 1
        some (((parseNat g.2.1 : Int) * 3600 + (parseNat g.2.2.1 : Int) * 60 +
          (parseNat g.2.2.2 : Int)) * sign)
      | none => none

/-! ### Spec-side definitions

`totalAfterOffset` follows the specification's words: the line's flattened
seconds (hour×3600 + minute×60 + second) plus the offset.  It is compared
with the textual behaviour of `offset_line` in the refinement claim. -/

/-- Spec-side reading of a line's new total: flattened seconds of the
leading timestamp plus the offset. -/
def totalAfterOffset (line : Str) (off : Int) : Option Int :=
  (subtitleLineMatch line).bind fun g =>
    (timestampMatch g.1).map fun t =>
      (parseNat t.1 : Int) * 3600 + (parseNat t.2.1 : Int) * 60 +
        (parseNat t.2.2 : Int) + off

/-- The sign factor of an optional sign group: `-1` for `'-'`, else `1`. -/
def signVal (sg : Option Char) : Int := if sg = some '-' then -1 else 1

/-- The optional sign group `([-+])?` as a relation between the captured
group and the consumed text. -/
def OptSign (sg : Option Char) (pre : Str) : Prop :=
  (sg = none ∧ pre = []) ∨ (sg = some '-' ∧ pre = ['-']) ∨
    (sg = some '+' ∧ pre = ['+'])

/-- Declarative form of the seconds-only grammar `[-+]?\d+`. -/
def MatchesOnlySeconds (s : Str) : Prop :=
  ∃ sg pre ds, OptSign sg pre ∧ ds ≠ [] ∧ (∀ c ∈ ds, c.isDigit) ∧
    s = pre ++ ds

/-- Declarative form of the minutes grammar `([-+])?(\d\d):(\d\d)`. -/
def MatchesWithMinutes (s : Str) : Prop :=
  ∃ sg pre m1 m2 s1 s2, OptSign sg pre ∧
    m1.isDigit ∧ m2.isDigit ∧ s1.isDigit ∧ s2.isDigit ∧
    s = pre ++ [m1, m2, ':', s1, s2]

/-- Declarative form of the hours grammar `([-+])?(\d+):(\d\d):(\d\d)`. -/
def MatchesWithHours (s : Str) : Prop :=
  ∃ sg pre hd m1 m2 s1 s2, OptSign sg pre ∧ hd ≠ [] ∧
    (∀ c ∈ hd, c.isDigit) ∧
    m1.isDigit ∧ m2.isDigit ∧ s1.isDigit ∧ s2.isDigit ∧
    s = pre ++ hd ++ ':' :: m1 :: m2 :: ':' :: s1 :: [s2]

/-- Declarative form of `SUBTITLE_LINE_PATTERN` matching at the start of a
line: a timestamp `H+:MM:SS` followed immediately by `:` or `=`. -/
def MatchesSubtitleLine (line : Str) : Prop :=
  ∃ hd c1 c2 c3 c4 sep tail, hd ≠ [] ∧ (∀ c ∈ hd, c.isDigit) ∧
    c1.isDigit ∧ c2.isDigit ∧ c3.isDigit ∧ c4.isDigit ∧
    (sep = ':' ∨ sep = '=') ∧
    line = hd ++ ':' :: c1 :: c2 :: ':' :: c3 :: c4 :: sep :: tail

/-! ### Decimal rendering and parsing lemmas -/

theorem parseNat_snoc (xs : Str) (c : Char) :
    parseNat (xs ++ [c]) = 10 * parseNat xs + digitToNat c := by
  simp [parseNat, List.foldl_append, Nat.mul_comm]

theorem parseNat_cons_zero (s : Str) : parseNat ('0' :: s) = parseNat s := by
  simp [parseNat, List.foldl, digitToNat]

theorem parseNat_replicate_zeros (k : Nat) (s : Str) :
    parseNat (List.replicate k '0' ++ s) = parseNat s := by
  induction k with
  | zero => simp
  | succ n ih => simpa [List.replicate_succ, parseNat_cons_zero] using ih

theorem digitToNat_ofNat (m : Nat) (h : m < 10) :
    digitToNat (Char.ofNat (48 + m)) = m := by
  interval_cases m <;> decide

theorem isDigit_ofNat (m : Nat) (h : m < 10) :
    (Char.ofNat (48 + m)).isDigit = true := by
  interval_cases m <;> decide

theorem natDigitsAux_spec (fuel : Nat) : ∀ n : Nat, n < fuel →
    parseNat (natDigitsAux fuel n) = n ∧ natDigitsAux fuel n ≠ [] ∧
      ∀ c ∈ natDigitsAux fuel n, c.isDigit := by
  induction fuel with
  | zero => intro n h; omega
  | succ f ih =>
    intro n h
    rw [natDigitsAux]
    by_cases h10 : n < 10
    · simp only [if_pos h10]
      refine ⟨?_, by simp, ?_⟩
      · have := digitToNat_ofNat n h10
        simp [parseNat, List.foldl, this]
      · intro c hc
        rw [List.mem_singleton] at hc
        subst hc
        exact isDigit_ofNat n h10
    · simp only [if_neg h10]
      have hlt : n / 10 < f := by omega
      obtain ⟨ihp, ihne, ihdig⟩ := ih (n / 10) hlt
      refine ⟨?_, by simp, ?_⟩
      · rw [parseNat_snoc, ihp, digitToNat_ofNat (n % 10) (by omega)]
        omega
      · intro c hc
        rw [List.mem_append] at hc
        rcases hc with hc | hc
        · exact ihdig c hc
        · rw [List.mem_singleton] at hc
          subst hc
          exact isDigit_ofNat (n % 10) (by omega)

theorem parseNat_natDigits (n : Nat) : parseNat (natDigits n) = n :=
  (natDigitsAux_spec (n + 1) n (by omega)).1

theorem natDigits_ne_nil (n : Nat) : natDigits n ≠ [] :=
  (natDigitsAux_spec (n + 1) n (by omega)).2.1

theorem natDigits_all_digit (n : Nat) : ∀ c ∈ natDigits n, c.isDigit :=
  (natDigitsAux_spec (n + 1) n (by omega)).2.2

theorem parseNat_padZeros (w : Nat) (s : Str) :
    parseNat (padZeros w s) = parseNat s :=
  parseNat_replicate_zeros _ _

theorem padZeros_ne_nil (w : Nat) (s : Str) (h : s ≠ []) :
    padZeros w s ≠ [] := by
  simp [padZeros]
  intro _
  exact h

theorem padZeros_all_digit (w : Nat) (s : Str) (h : ∀ c ∈ s, c.isDigit) :
    ∀ c ∈ padZeros w s, c.isDigit := by
  intro c hc
  rw [padZeros, List.mem_append] at hc
  rcases hc with hc | hc
  · rw [List.eq_of_mem_replicate hc]; decide
  · exact h c hc

theorem takeWhile_digits_append (hd : Str) (h2 : ∀ c ∈ hd, c.isDigit)
    (y : Char) (hy : ¬ y.isDigit) (ys : Str) :
    (hd ++ y :: ys).takeWhile Char.isDigit = hd ∧
      (hd ++ y :: ys).dropWhile Char.isDigit = y :: ys := by
  induction hd with
  | nil =>
    simp [List.takeWhile, List.dropWhile, hy]
  | cons c cs ih =>
    have hc : c.isDigit := h2 c (by simp)
    have ihr := ih (fun x hx => h2 x (by simp [hx]))
    simp [List.takeWhile_cons, List.dropWhile_cons, hc, ihr.1, ihr.2]

theorem takeWhile_no_newline (tail : Str) (h : '\n' ∉ tail) :
    tail.takeWhile (fun c => c ≠ '\n') = tail := by
  rw [List.takeWhile_eq_self_iff]
  intro x hx
  simp only [ne_eq, decide_eq_true_eq]
  intro e
  exact h (e ▸ hx)

/-! ### Facts about `fmt02` -/

theorem fmt02_of_nonneg (n : Int) (h : 0 ≤ n) :
    fmt02 n = padZeros 2 (natDigits n.toNat) := by
  rw [fmt02, if_neg (by omega)]

theorem fmt02_ne_nil (n : Int) : fmt02 n ≠ [] := by
  rw [fmt02]
  split
  · simp
  · exact padZeros_ne_nil _ _ (natDigits_ne_nil _)

theorem fmt02_all_digit (n : Int) (h : 0 ≤ n) : ∀ c ∈ fmt02 n, c.isDigit := by
  rw [fmt02_of_nonneg n h]
  exact padZeros_all_digit _ _ (natDigits_all_digit _)

theorem parseNat_fmt02 (n : Int) (h : 0 ≤ n) :
    (parseNat (fmt02 n) : Int) = n := by
  rw [fmt02_of_nonneg n h, parseNat_padZeros, parseNat_natDigits,
    Int.toNat_of_nonneg h]

theorem startsWithDash_cons (c : Char) (cs : Str) :
    startsWithDash (c :: cs) = decide (c = '-') := rfl

theorem startsWithDash_append (s t : Str) (h : s ≠ []) :
    startsWithDash (s ++ t) = startsWithDash s := by
  cases s with
  | nil => exact absurd rfl h
  | cons c cs => rfl

theorem startsWithDash_fmt02 (n : Int) :
    startsWithDash (fmt02 n) = decide (n < 0) := by
  by_cases h : n < 0
  · rw [fmt02, if_pos h]
    simp [startsWithDash_cons, h]
  · have hall := fmt02_all_digit n (by omega)
    have hne := fmt02_ne_nil n
    cases e : fmt02 n with
    | nil => exact absurd e hne
    | cons c cs =>
      have hc : c.isDigit := hall c (by rw [e]; simp)
      have hcd : c ≠ '-' := by
        intro hdash
        rw [hdash] at hc
        exact absurd hc (by decide)
      simp [startsWithDash_cons, hcd, h]

theorem natDigitsAux_lt10 (f n : Nat) (h : n < 10) :
    natDigitsAux (f + 1) n = [Char.ofNat (48 + n)] := by
  rw [natDigitsAux, if_pos h]

theorem natDigits_lt10 (n : Nat) (h : n < 10) :
    natDigits n = [Char.ofNat (48 + n)] :=
  natDigitsAux_lt10 n n h

theorem natDigits_lt100 (n : Nat) (h1 : 10 ≤ n) (h2 : n < 100) :
    natDigits n = [Char.ofNat (48 + n / 10), Char.ofNat (48 + n % 10)] := by
  obtain ⟨f, rfl⟩ : ∃ f, n = f + 1 := ⟨n - 1, by omega⟩
  rw [natDigits, natDigitsAux, if_neg (by omega),
    natDigitsAux_lt10 f ((f + 1) / 10) (by omega)]
  rfl

theorem fmt02_two_digits (m : Nat) (h : m < 100) :
    ∃ c1 c2, fmt02 (m : Int) = [c1, c2] ∧ c1.isDigit ∧ c2.isDigit ∧
      parseNat [c1, c2] = m := by
  have h0 : (0 : Int) ≤ m := by omega
  rw [fmt02_of_nonneg _ h0, Int.toNat_natCast]
  by_cases h10 : m < 10
  · refine ⟨'0', Char.ofNat (48 + m), ?_, by decide, isDigit_ofNat m h10, ?_⟩
    · rw [natDigits_lt10 m h10]
      rfl
    · have := digitToNat_ofNat m h10
      simp [parseNat, List.foldl, digitToNat] at this ⊢
      omega
  · refine ⟨Char.ofNat (48 + m / 10), Char.ofNat (48 + m % 10), ?_, 
      isDigit_ofNat _ (by omega), isDigit_ofNat _ (by omega), ?_⟩
    · rw [natDigits_lt100 m (by omega) h]
      rfl
    · have ha := digitToNat_ofNat (m / 10) (by omega)
      have hb := digitToNat_ofNat (m % 10) (by omega)
      simp [parseNat, List.foldl, ha, hb]
      omega

/-! ### Matcher computation lemmas -/

theorem timestampMatch_eq (hd : Str) (h1 : hd ≠ []) (h2 : ∀ c ∈ hd, c.isDigit)
    {c1 c2 c3 c4 : Char} (d1 : c1.isDigit) (d2 : c2.isDigit)
    (d3 : c3.isDigit) (d4 : c4.isDigit) (rest : Str) :
    timestampMatch (hd ++ ':' :: c1 :: c2 :: ':' :: c3 :: c4 :: rest) =
      some (hd, [c1, c2], [c3, c4]) := by
  have h := takeWhile_digits_append hd h2 ':' (by decide)
    (c1 :: c2 :: ':' :: c3 :: c4 :: rest)
  simp only [timestampMatch, h.1, h.2]
  simp [h1, d1, d2, d3, d4]

theorem subtitleLineMatch_eq (hd : Str) (h1 : hd ≠ [])
    (h2 : ∀ c ∈ hd, c.isDigit) {c1 c2 c3 c4 sep : Char}
    (d1 : c1.isDigit) (d2 : c2.isDigit) (d3 : c3.isDigit) (d4 : c4.isDigit)
    (hsep : sep = ':' ∨ sep = '=') (tail : Str) :
    subtitleLineMatch (hd ++ ':' :: c1 :: c2 :: ':' :: c3 :: c4 :: sep :: tail) =
      some (hd ++ ':' :: c1 :: c2 :: ':' :: c3 :: [c4], sep,
        tail.takeWhile (fun c => c ≠ '\n')) := by
  have h := takeWhile_digits_append hd h2 ':' (by decide)
    (c1 :: c2 :: ':' :: c3 :: c4 :: sep :: tail)
  simp only [subtitleLineMatch, h.1, h.2]
  rcases hsep with e | e <;> subst e <;> simp [h1, d1, d2, d3, d4]

theorem subtitleLineMatch_inv {line ts : Str} {sep : Char} {content : Str}
    (h : subtitleLineMatch line = some (ts, sep, content)) :
    ∃ hd c1 c2 c3 c4 tail, hd ≠ [] ∧ (∀ c ∈ hd, c.isDigit) ∧
      c1.isDigit ∧ c2.isDigit ∧ c3.isDigit ∧ c4.isDigit ∧
      (sep = ':' ∨ sep = '=') ∧
      line = hd ++ ':' :: c1 :: c2 :: ':' :: c3 :: c4 :: sep :: tail ∧
      ts = hd ++ ':' :: c1 :: c2 :: ':' :: c3 :: [c4] ∧
      content = tail.takeWhile (fun c => c ≠ '\n') := by
  rw [subtitleLineMatch.eq_def] at h
  split at h
  case h_1 a c1 c2 b c3 c4 sep' tail heq =>
    simp only [] at h
    split at h
    case isTrue hcond =>
      simp only [Bool.and_eq_true, decide_eq_true_eq, Bool.or_eq_true] at hcond
      obtain ⟨⟨⟨⟨⟨⟨⟨hne, ha⟩, hd1⟩, hd2⟩, hb⟩, hd3⟩, hd4⟩, hsepc⟩ := hcond
      injection h with h'
      obtain ⟨h1', h2', h3'⟩ :
          line.takeWhile Char.isDigit ++ [':', c1, c2, ':', c3, c4] = ts ∧
            sep' = sep ∧ tail.takeWhile (fun c => decide (c ≠ '\n')) = content := by
        subst ha hb
        simpa [Prod.ext_iff] using h'
      subst h2'
      refine ⟨line.takeWhile Char.isDigit, c1, c2, c3, c4, tail, hne, ?_,
        hd1, hd2, hd3, hd4, hsepc, ?_, ?_, ?_⟩
      · intro c hc
        exact List.mem_takeWhile_imp hc
      · subst ha hb
        rw [← heq, List.takeWhile_append_dropWhile]
      · exact h1'.symm
      · exact h3'.symm
    case isFalse => simp at h
  case h_2 => simp at h

theorem fdiv_sixty (t : Int) : t.fdiv 60 = t / 60 :=
  Int.fdiv_eq_ediv t (by norm_num)

theorem fmod_sixty (t : Int) : t.fmod 60 = t % 60 :=
  Int.fmod_eq_emod t (by norm_num)

theorem fdiv_thirtysix_hundred (t : Int) : t.fdiv 3600 = t / 3600 :=
  Int.fdiv_eq_ediv t (by norm_num)

theorem fdiv_two_stage (t : Int) : (t.fdiv 60).fdiv 60 = t.fdiv 3600 := by
  rw [fdiv_sixty, Int.fdiv_eq_ediv _ (by norm_num : (0:Int) ≤ 60),
    fdiv_thirtysix_hundred]
  omega

/-! ### Evaluation of the line transformer on well-formed input -/

theorem offset_timestamp_eval (ts : Str) (off : Int) {h m s : Str}
    (hm : timestampMatch ts = some (h, m, s)) :
    offset_timestamp ts off =
      some (renderTimestamp
        (((parseNat h : Int) * 3600 + (parseNat m : Int) * 60 +
          (parseNat s : Int) + off).fdiv 3600)
        ((((parseNat h : Int) * 3600 + (parseNat m : Int) * 60 +
          (parseNat s : Int) + off).fdiv 60).fmod 60)
        (((parseNat h : Int) * 3600 + (parseNat m : Int) * 60 +
          (parseNat s : Int) + off).fmod 60)) := by
  have e : (parseNat h : Int) * 60 * 60 + (parseNat m : Int) * 60 +
      (parseNat s : Int) + off =
      (parseNat h : Int) * 3600 + (parseNat m : Int) * 60 +
        (parseNat s : Int) + off := by ring
  simp only [offset_timestamp, hm, Option.map_some', e, fdiv_two_stage]

theorem offset_line_eval (hd : Str) (h1 : hd ≠ []) (h2 : ∀ c ∈ hd, c.isDigit)
    {c1 c2 c3 c4 sep : Char}
    (d1 : c1.isDigit) (d2 : c2.isDigit) (d3 : c3.isDigit) (d4 : c4.isDigit)
    (hsep : sep = ':' ∨ sep = '=') (tail : Str) (off : Int) :
    offset_line (hd ++ ':' :: c1 :: c2 :: ':' :: c3 :: c4 :: sep :: tail) off =
      some (renderTimestamp
        (((parseNat hd : Int) * 3600 + (parseNat [c1, c2] : Int) * 60 +
          (parseNat [c3, c4] : Int) + off).fdiv 3600)
        ((((parseNat hd : Int) * 3600 + (parseNat [c1, c2] : Int) * 60 +
          (parseNat [c3, c4] : Int) + off).fdiv 60).fmod 60)
        (((parseNat hd : Int) * 3600 + (parseNat [c1, c2] : Int) * 60 +
          (parseNat [c3, c4] : Int) + off).fmod 60) ++
        sep :: tail.takeWhile (fun c => c ≠ '\n')) := by
  have hts : timestampMatch (hd ++ ':' :: c1 :: c2 :: ':' :: c3 :: [c4]) =
      some (hd, [c1, c2], [c3, c4]) := timestampMatch_eq hd h1 h2 d1 d2 d3 d4 []
  simp only [offset_line, subtitleLineMatch_eq hd h1 h2 d1 d2 d3 d4 hsep tail,
    Option.some_bind, offset_timestamp_eval _ off hts, Option.map_some']

theorem startsWithDash_renderTimestamp (a b c : Int) :
    startsWithDash (renderTimestamp a b c) = decide (a < 0) := by
  rw [renderTimestamp,
    startsWithDash_append _ _
      (fun h => fmt02_ne_nil a (List.append_eq_nil.mp h).1),
    startsWithDash_append _ _ (fmt02_ne_nil a), startsWithDash_fmt02]

theorem renderTimestamp_ne_nil (a b c : Int) : renderTimestamp a b c ≠ [] := by
  rw [renderTimestamp]
  intro h
  exact fmt02_ne_nil a (List.append_eq_nil.mp (List.append_eq_nil.mp h).1).1

/-- C3: for every well-formed timestamp and every integer offset, with
`total` the flattened seconds plus the offset, `offset_timestamp` renders
the components `total fdiv 3600`, `(total fdiv 60) fmod 60` and
`total fmod 60` (floor division and floor modulo); the code's two-stage
division `(total fdiv 60) fdiv 60` equals `total fdiv 3600`; and
`total = -1` gives second 59, minute 59, hour -1. -/
theorem claim_C3_components :
    (∀ (ts : Str) (off : Int) (h m s : Str),
      timestampMatch ts = some (h, m, s) →
      offset_timestamp ts off =
        some (renderTimestamp
          (((parseNat h : Int) * 3600 + (parseNat m : Int) * 60 +
            (parseNat s : Int) + off).fdiv 3600)
          ((((parseNat h : Int) * 3600 + (parseNat m : Int) * 60 +
            (parseNat s : Int) + off).fdiv 60).fmod 60)
          (((parseNat h : Int) * 3600 + (parseNat m : Int) * 60 +
            (parseNat s : Int) + off).fmod 60))) ∧
    (∀ t : Int, (t.fdiv 60).fdiv 60 = t.fdiv 3600) ∧
    ((-1 : Int).fmod 60 = 59 ∧ (((-1 : Int).fdiv 60).fmod 60 = 59) ∧
      (-1 : Int).fdiv 3600 = -1) := by
  refine ⟨?_, fdiv_two_stage, by decide⟩
  intro ts off h m s hm
  exact offset_timestamp_eval ts off hm

/-- Witness for C3 at the concrete timestamp `00:30:00` with offset `-11`
(the spec's example `offset_timestamp("00:30:00", -11) == "00:29:49"`). -/
theorem claim_C3_components_witness :
    offset_timestamp (strL "00:30:00") (-11) = some (strL "00:29:49") := by
  rw [claim_C3_components.1 (strL "00:30:00") (-11) (strL "00") (strL "30")
    (strL "00") (by decide)]
  decide

/-- C4: the output of `offset_line` starts with `'-'` exactly when the
line's flattened seconds plus the offset is negative, so the textual
`startswith` filter agrees with filtering on `total < 0`. -/
theorem claim_C4_dash_iff_negative :
    ∀ (line : Str) (off : Int) (out : Str) (total : Int),
      offset_line line off = some out →
      totalAfterOffset line off = some total →
      (startsWithDash out = true ↔ total < 0) := by
  intro line off out total hline htotal
  cases e : subtitleLineMatch line with
  | none => rw [offset_line, e] at hline; simp at hline
  | some g =>
    obtain ⟨ts, sep, content⟩ := g
    obtain ⟨hd, c1, c2, c3, c4, tail, hne, hdig, hd1, hd2, hd3, hd4, hsep,
      hlineeq, htseq, hconteq⟩ := subtitleLineMatch_inv e
    subst hlineeq
    rw [offset_line_eval hd hne hdig hd1 hd2 hd3 hd4 hsep tail off] at hline
    injection hline with hout
    subst hout
    rw [totalAfterOffset,
      subtitleLineMatch_eq hd hne hdig hd1 hd2 hd3 hd4 hsep tail,
      Option.some_bind,
      timestampMatch_eq hd hne hdig hd1 hd2 hd3 hd4 [],
      Option.map_some'] at htotal
    injection htotal with htot
    rw [startsWithDash_append _ _ (renderTimestamp_ne_nil _ _ _),
      startsWithDash_renderTimestamp]
    rw [← htot, fdiv_thirtysix_hundred]
    simp only [decide_eq_true_eq]
    omega

/-- Witness for C4: line `00:00:10=x` with offset `-20` renders as
`-1:59:50=x`, whose leading `'-'` matches the negative total `-10`. -/
theorem claim_C4_dash_iff_negative_witness :
    offset_line (strL "00:00:10=x") (-20) = some (strL "-1:59:50=x") ∧
      totalAfterOffset (strL "00:00:10=x") (-20) = some (-10) ∧
      (startsWithDash (strL "-1:59:50=x") = true ↔ (-10 : Int) < 0) :=
  ⟨by decide, by decide,
    claim_C4_dash_iff_negative (strL "00:00:10=x") (-20) (strL "-1:59:50=x")
      (-10) (by decide) (by decide)⟩

/-- C2: on well-formed lines `offset_subtitles` yields exactly the
per-line results of `offset_line` that do not start with `'-'`, in order,
nothing added, duplicated or reordered; in particular the two-line example
with offset `-20` keeps only the second line's content behind the first
surviving timestamp. -/
theorem claim_C2_pure_filter :
    (∀ (lines : List Str) (off : Int),
      (∀ l ∈ lines, (offset_line l off).isSome) →
      offset_subtitles lines off =
        some ((lines.filterMap fun l => offset_line l off).filter
          fun f => !startsWithDash f)) ∧
    offset_subtitles
      [strL "00:00:10=Translation & sync",
       strL "00:00:30=Long, long time ago..."] (-20) =
      some [strL "00:00:10=Long, long time ago..."] := by
  constructor
  · intro lines off h
    induction lines with
    | nil => simp [offset_subtitles]
    | cons l rest ih =>
      obtain ⟨f, hf⟩ := Option.isSome_iff_exists.mp (h l (by simp))
      have ihr := ih fun x hx => h x (by simp [hx])
      rw [offset_subtitles, hf, Option.some_bind, ihr, Option.map_some',
        List.filterMap_cons, hf, List.filter_cons]
      cases hs : startsWithDash f <;> simp [hs]
  · decide

/-- Witness for C2 applying the filter characterisation to the two-line
example. -/
theorem claim_C2_pure_filter_witness :
    (∀ l ∈ [strL "00:00:10=Translation & sync",
            strL "00:00:30=Long, long time ago..."],
      (offset_line l (-20)).isSome) ∧
    offset_subtitles
      [strL "00:00:10=Translation & sync",
       strL "00:00:30=Long, long time ago..."] (-20) =
      some (((([strL "00:00:10=Translation & sync",
         strL "00:00:30=Long, long time ago..."]).filterMap
           fun l => offset_line l (-20)).filter
             fun f => !startsWithDash f)) :=
  ⟨by decide, claim_C2_pure_filter.1 _ (-20) (by decide)⟩

theorem fmt02_two_digits_int (m : Int) (h0 : 0 ≤ m) (h : m < 100) :
    ∃ c1 c2, fmt02 m = [c1, c2] ∧ c1.isDigit ∧ c2.isDigit ∧
      (parseNat [c1, c2] : Int) = m := by
  obtain ⟨c1, c2, he, d1, d2, hp⟩ := fmt02_two_digits m.toNat (by omega)
  rw [← Int.toNat_of_nonneg h0]
  exact ⟨c1, c2, he, d1, d2, by rw [hp]⟩

theorem offset_line_render_eval (H M S : Int) (hH : 0 ≤ H)
    (hM0 : 0 ≤ M) (hM : M < 60) (hS0 : 0 ≤ S) (hS : S < 60)
    (sep : Char) (hsep : sep = ':' ∨ sep = '=') (content : Str)
    (hnl : '\n' ∉ content) (off : Int) :
    offset_line (renderTimestamp H M S ++ sep :: content) off =
      some (renderTimestamp
        ((H * 3600 + M * 60 + S + off).fdiv 3600)
        (((H * 3600 + M * 60 + S + off).fdiv 60).fmod 60)
        ((H * 3600 + M * 60 + S + off).fmod 60) ++ sep :: content) := by
  obtain ⟨m1, m2, hm, dm1, dm2, hmp⟩ := fmt02_two_digits_int M hM0 (by omega)
  obtain ⟨s1, s2, hs, ds1, ds2, hsp⟩ := fmt02_two_digits_int S hS0 (by omega)
  have hshape : renderTimestamp H M S ++ sep :: content =
      fmt02 H ++ ':' :: m1 :: m2 :: ':' :: s1 :: s2 :: sep :: content := by
    rw [renderTimestamp, hm, hs]
    simp
  rw [hshape,
    offset_line_eval (fmt02 H) (fmt02_ne_nil H) (fmt02_all_digit H hH)
      dm1 dm2 ds1 ds2 hsep content off,
    takeWhile_no_newline content hnl]
  rw [show ((parseNat (fmt02 H) : Int)) = H from parseNat_fmt02 H hH,
    show ((parseNat [m1, m2] : Int)) = M from hmp,
    show ((parseNat [s1, s2] : Int)) = S from hsp]

/-- C5: offsetting a canonically rendered line by `o` and the result by
`-o` reconstructs the original timestamp value, separator and content,
provided both totals stay non-negative (the initial total is non-negative
because its components are). -/
theorem claim_C5_round_trip :
    ∀ (H M S : Nat) (sep : Char) (content : Str) (o : Int),
      M < 60 → S < 60 → (sep = ':' ∨ sep = '=') → '\n' ∉ content →
      0 ≤ (H : Int) * 3600 + M * 60 + S + o →
      ∃ mid,
        offset_line (renderTimestamp H M S ++ sep :: content) o = some mid ∧
        offset_line mid (-o) =
          some (renderTimestamp H M S ++ sep :: content) := by
  intro H M S sep content o hM hS hsep hnl hpos
  have hM' : (M : Int) < 60 := by exact_mod_cast hM
  have hS' : (S : Int) < 60 := by exact_mod_cast hS
  refine ⟨renderTimestamp
      (((H : Int) * 3600 + M * 60 + S + o).fdiv 3600)
      ((((H : Int) * 3600 + M * 60 + S + o).fdiv 60).fmod 60)
      (((H : Int) * 3600 + M * 60 + S + o).fmod 60) ++ sep :: content,
    ?_, ?_⟩
  · exact offset_line_render_eval H M S (by positivity) (by positivity) hM'
      (by positivity) hS' sep hsep content hnl o
  · have hA0 : 0 ≤ ((H : Int) * 3600 + M * 60 + S + o).fdiv 3600 := by
      rw [fdiv_thirtysix_hundred]; omega
    have hB0 : 0 ≤ (((H : Int) * 3600 + M * 60 + S + o).fdiv 60).fmod 60 := by
      rw [fdiv_sixty, fmod_sixty]; omega
    have hB1 : (((H : Int) * 3600 + M * 60 + S + o).fdiv 60).fmod 60 < 60 := by
      rw [fdiv_sixty, fmod_sixty]; omega
    have hC0 : 0 ≤ ((H : Int) * 3600 + M * 60 + S + o).fmod 60 := by
      rw [fmod_sixty]; omega
    have hC1 : ((H : Int) * 3600 + M * 60 + S + o).fmod 60 < 60 := by
      rw [fmod_sixty]; omega
    rw [offset_line_render_eval _ _ _ hA0 hB0 hB1 hC0 hC1 sep hsep content
      hnl (-o)]
    have hsum : (((H : Int) * 3600 + M * 60 + S + o).fdiv 3600) * 3600 +
        ((((H : Int) * 3600 + M * 60 + S + o).fdiv 60).fmod 60) * 60 +
        (((H : Int) * 3600 + M * 60 + S + o).fmod 60) + -o =
        (H : Int) * 3600 + M * 60 + S := by
      rw [fdiv_thirtysix_hundred, fdiv_sixty, fmod_sixty, fmod_sixty]
      omega
    rw [hsum]
    have e1 : ((H : Int) * 3600 + M * 60 + S).fdiv 3600 = (H : Int) := by
      rw [fdiv_thirtysix_hundred]; omega
    have e2 : (((H : Int) * 3600 + M * 60 + S).fdiv 60).fmod 60 = (M : Int) := by
      rw [fdiv_sixty, fmod_sixty]; omega
    have e3 : ((H : Int) * 3600 + M * 60 + S).fmod 60 = (S : Int) := by
      rw [fmod_sixty]; omega
    rw [e1, e2, e3]

/-- Witness for C5 at `00:00:30`, separator `'='`, content `a`, offset
`-20`. -/
theorem claim_C5_round_trip_witness :
    (0 : Int) ≤ (0 : Nat) * 3600 + (0 : Nat) * 60 + (30 : Nat) + (-20) ∧
    ∃ mid,
      offset_line (renderTimestamp 0 0 30 ++ '=' :: strL "a") (-20) =
        some mid ∧
      offset_line mid 20 = some (renderTimestamp 0 0 30 ++ '=' :: strL "a") :=
  ⟨by decide,
    claim_C5_round_trip 0 0 30 '=' (strL "a") (-20) (by decide) (by decide)
      (Or.inr rfl) (by decide) (by decide)⟩

/-- C6 counterexample: the line `1:55:30:x` is well-formed (one-digit hour
group), yet offsetting it by `0` re-renders the hour as `01`, so the
output differs from the input. -/
theorem claim_C6_offset_zero_counterexample :
    offset_line (strL "1:55:30:x") 0 ≠ some (strL "1:55:30:x") ∧
      offset_line (strL "1:55:30:x") 0 = some (strL "01:55:30:x") := by
  constructor
  · decide
  · decide

/-- C6 amended: offsetting by `0` returns the line unchanged for every
well-formed line whose timestamp is canonically rendered (hour zero-padded
to width at least 2 with no extra leading zeros, minute and second values
below 60) and whose content contains no newline. -/
theorem claim_C6_offset_zero_id :
    ∀ (H M S : Nat) (sep : Char) (content : Str),
      M < 60 → S < 60 → (sep = ':' ∨ sep = '=') → '\n' ∉ content →
      offset_line (renderTimestamp H M S ++ sep :: content) 0 =
        some (renderTimestamp H M S ++ sep :: content) := by
  intro H M S sep content hM hS hsep hnl
  have hM' : (M : Int) < 60 := by exact_mod_cast hM
  have hS' : (S : Int) < 60 := by exact_mod_cast hS
  rw [offset_line_render_eval H M S (by positivity) (by positivity) hM'
    (by positivity) hS' sep hsep content hnl 0]
  have e1 : ((H : Int) * 3600 + M * 60 + S + 0).fdiv 3600 = (H : Int) := by
    rw [fdiv_thirtysix_hundred]; omega
  have e2 : (((H : Int) * 3600 + M * 60 + S + 0).fdiv 60).fmod 60
      = (M : Int) := by
    rw [fdiv_sixty, fmod_sixty]; omega
  have e3 : ((H : Int) * 3600 + M * 60 + S + 0).fmod 60 = (S : Int) := by
    rw [fmod_sixty]; omega
  rw [e1, e2, e3]

/-- Witness for the amended C6 at the line `00:26:18:abc`. -/
theorem claim_C6_offset_zero_id_witness :
    offset_line (renderTimestamp 0 26 18 ++ ':' :: strL "abc") 0 =
      some (renderTimestamp 0 26 18 ++ ':' :: strL "abc") :=
  claim_C6_offset_zero_id 0 26 18 ':' (strL "abc") (by decide) (by decide)
    (Or.inl rfl) (by decide)

/-- C9: for every well-formed line the output of `offset_line` is exactly
the re-rendered timestamp, then the input's separator unchanged, then the
input's content unchanged character for character. -/
theorem claim_C9_reassembly :
    ∀ (hd : Str) (c1 c2 c3 c4 sep : Char) (content : Str) (off : Int),
      hd ≠ [] → (∀ c ∈ hd, c.isDigit) →
      c1.isDigit → c2.isDigit → c3.isDigit → c4.isDigit →
      (sep = ':' ∨ sep = '=') → '\n' ∉ content →
      ∃ ft,
        offset_timestamp (hd ++ ':' :: c1 :: c2 :: ':' :: c3 :: [c4]) off =
          some ft ∧
        offset_line (hd ++ ':' :: c1 :: c2 :: ':' :: c3 :: c4 :: sep ::
          content) off = some (ft ++ sep :: content) := by
  intro hd c1 c2 c3 c4 sep content off h1 h2 d1 d2 d3 d4 hsep hnl
  refine ⟨_, offset_timestamp_eval _ off (timestampMatch_eq hd h1 h2
    d1 d2 d3 d4 []), ?_⟩
  rw [offset_line_eval hd h1 h2 d1 d2 d3 d4 hsep content off,
    takeWhile_no_newline content hnl]

/-- Witness for C9 at the line `00:26:29=I want her.` with offset `555`
(content and separator are preserved verbatim). -/
theorem claim_C9_reassembly_witness :
    ∃ ft,
      offset_timestamp (strL "00" ++ ':' :: '2' :: '6' :: ':' :: '2' :: ['9'])
        555 = some ft ∧
      offset_line (strL "00" ++ ':' :: '2' :: '6' :: ':' :: '2' :: '9' ::
        '=' :: strL "I want her.") 555 =
        some (ft ++ '=' :: strL "I want her.") :=
  claim_C9_reassembly (strL "00") '2' '6' '2' '9' '=' (strL "I want her.")
    555 (by decide) (by decide) (by decide) (by decide) (by decide)
    (by decide) (Or.inr rfl) (by decide)

/-- C10: minute or second digit groups outside `[0,59]` are accepted
without range validation: `offset_line` succeeds, flattens the groups via
`hour*3600 + minute*60 + second`, and renders the normalized canonical
timestamp; in particular `00:99:99:text` at offset `0` becomes
`01:40:39:text`. -/
theorem claim_C10_no_range_check :
    (∀ (hd : Str) (c1 c2 c3 c4 sep : Char) (content : Str) (off : Int),
      hd ≠ [] → (∀ c ∈ hd, c.isDigit) →
      c1.isDigit → c2.isDigit → c3.isDigit → c4.isDigit →
      (sep = ':' ∨ sep = '=') → '\n' ∉ content →
      offset_line (hd ++ ':' :: c1 :: c2 :: ':' :: c3 :: c4 :: sep ::
        content) off =
        some (renderTimestamp
          (((parseNat hd : Int) * 3600 + (parseNat [c1, c2] : Int) * 60 +
            (parseNat [c3, c4] : Int) + off).fdiv 3600)
          ((((parseNat hd : Int) * 3600 + (parseNat [c1, c2] : Int) * 60 +
            (parseNat [c3, c4] : Int) + off).fdiv 60).fmod 60)
          (((parseNat hd : Int) * 3600 + (parseNat [c1, c2] : Int) * 60 +
            (parseNat [c3, c4] : Int) + off).fmod 60) ++ sep :: content)) ∧
    offset_line (strL "00:99:99:text") 0 = some (strL "01:40:39:text") := by
  constructor
  · intro hd c1 c2 c3 c4 sep content off h1 h2 d1 d2 d3 d4 hsep hnl
    rw [offset_line_eval hd h1 h2 d1 d2 d3 d4 hsep content off,
      takeWhile_no_newline content hnl]
  · decide

/-- Witness for C10 applying the general statement to `00:99:99:text`. -/
theorem claim_C10_no_range_check_witness :
    offset_line (strL "00" ++ ':' :: '9' :: '9' :: ':' :: '9' :: '9' ::
      ':' :: strL "text") 0 =
      some (renderTimestamp
        (((parseNat (strL "00") : Int) * 3600 +
          (parseNat ['9', '9'] : Int) * 60 +
          (parseNat ['9', '9'] : Int) + 0).fdiv 3600)
        ((((parseNat (strL "00") : Int) * 3600 +
          (parseNat ['9', '9'] : Int) * 60 +
          (parseNat ['9', '9'] : Int) + 0).fdiv 60).fmod 60)
        (((parseNat (strL "00") : Int) * 3600 +
          (parseNat ['9', '9'] : Int) * 60 +
          (parseNat ['9', '9'] : Int) + 0).fmod 60) ++ ':' :: strL "text") :=
  claim_C10_no_range_check.1 (strL "00") '9' '9' '9' '9' ':' (strL "text")
    0 (by decide) (by decide) (by decide) (by decide) (by decide)
    (by decide) (Or.inl rfl) (by decide)

/-! ### Matcher facts for the offset grammars -/

theorem parseInt_of_digits (s : Str) (h : ∀ c ∈ s, c.isDigit) :
    parseInt s = (parseNat s : Int) := by
  cases s with
  | nil => rfl
  | cons c rest =>
    have hc := h c (by simp)
    have h1 : c ≠ '-' := by intro e; subst e; exact absurd hc (by decide)
    have h2 : c ≠ '+' := by intro e; subst e; exact absurd hc (by decide)
    simp [parseInt, h1, h2]

theorem onlySeconds_intro (sg : Option Char) (pre ds : Str)
    (hopt : OptSign sg pre) (hne : ds ≠ []) (hall : ∀ c ∈ ds, c.isDigit) :
    onlySecondsMatch (pre ++ ds) = true := by
  rcases hopt with ⟨e1, e2⟩ | ⟨e1, e2⟩ | ⟨e1, e2⟩ <;> subst e2
  · rw [List.nil_append]
    cases ds with
    | nil => exact absurd rfl hne
    | cons c rest =>
      have hc := hall c (by simp)
      have h1 : c ≠ '-' := by intro e; subst e; exact absurd hc (by decide)
      have h2 : c ≠ '+' := by intro e; subst e; exact absurd hc (by decide)
      simp [onlySecondsMatch, h1, h2, List.all_eq_true]
      exact ⟨hc, fun x hx => hall x (by simp [hx])⟩
  · simp only [List.cons_append, List.nil_append, onlySecondsMatch]
    simp [List.isEmpty_iff, hne, List.all_eq_true]
    exact fun x hx => hall x hx
  · simp only [List.cons_append, List.nil_append, onlySecondsMatch]
    simp [List.isEmpty_iff, hne, List.all_eq_true]
    exact fun x hx => hall x hx

theorem onlySeconds_elim (s : Str) (h : onlySecondsMatch s = true) :
    MatchesOnlySeconds s := by
  cases s with
  | nil => simp [onlySecondsMatch] at h
  | cons c rest =>
    by_cases hm : c = '-' ∨ c = '+'
    · have he : onlySecondsMatch (c :: rest) =
          (!rest.isEmpty && rest.all Char.isDigit) := by
        rcases hm with e | e <;> subst e <;> simp [onlySecondsMatch]
      rw [he] at h
      simp only [Bool.and_eq_true, Bool.not_eq_true', List.isEmpty_eq_false,
        List.all_eq_true] at h
      rcases hm with e | e <;> subst e
      · exact ⟨some '-', ['-'], rest, Or.inr (Or.inl ⟨rfl, rfl⟩), h.1,
          fun x hx => h.2 x hx, rfl⟩
      · exact ⟨some '+', ['+'], rest, Or.inr (Or.inr ⟨rfl, rfl⟩), h.1,
          fun x hx => h.2 x hx, rfl⟩
    · push_neg at hm
      have he : onlySecondsMatch (c :: rest) = (c :: rest).all Char.isDigit := by
        simp [onlySecondsMatch, hm.1, hm.2]
      rw [he, List.all_eq_true] at h
      exact ⟨none, [], c :: rest, Or.inl ⟨rfl, rfl⟩, by simp,
        fun x hx => h x hx, rfl⟩

theorem onlySeconds_false_of_colon (s : Str) (h : ':' ∈ s) :
    onlySecondsMatch s = false := by
  cases e : onlySecondsMatch s
  · rfl
  · exfalso
    obtain ⟨sg, pre, ds, hopt, hne, hall, heq⟩ := onlySeconds_elim s e
    subst heq
    rw [List.mem_append] at h
    rcases h with h | h
    · rcases hopt with ⟨_, hp⟩ | ⟨_, hp⟩ | ⟨_, hp⟩ <;> subst hp <;> simp at h
    · exact absurd (hall ':' h) (by decide)

theorem signSplit_pre (sg : Option Char) (pre r : Str) (hopt : OptSign sg pre)
    (hr : ∀ c rest, r = c :: rest → c.isDigit) :
    signSplit (pre ++ r) = (sg, r) := by
  rcases hopt with ⟨e1, e2⟩ | ⟨e1, e2⟩ | ⟨e1, e2⟩ <;> subst e1 <;> subst e2
  · rw [List.nil_append]
    cases r with
    | nil => rfl
    | cons c rest =>
      have hc := hr c rest rfl
      have h1 : c ≠ '-' := by intro e; subst e; exact absurd hc (by decide)
      have h2 : c ≠ '+' := by intro e; subst e; exact absurd hc (by decide)
      simp [signSplit, h1, h2]
  · simp [signSplit]
  · simp [signSplit]

theorem signSplit_inv (s : Str) (sg : Option Char) (r : Str)
    (h : signSplit s = (sg, r)) : ∃ pre, OptSign sg pre ∧ s = pre ++ r := by
  cases s with
  | nil =>
    simp only [signSplit, Prod.mk.injEq] at h
    exact ⟨[], Or.inl ⟨h.1.symm, rfl⟩, by rw [← h.2]; rfl⟩
  | cons c rest =>
    by_cases hm : c = '-' ∨ c = '+'
    · have he : signSplit (c :: rest) = (some c, rest) := by
        rcases hm with e | e <;> subst e <;> simp [signSplit]
      rw [he] at h
      obtain ⟨h1, h2⟩ := Prod.mk.injEq .. |>.mp h
      rcases hm with e | e <;> subst e
      · exact ⟨['-'], Or.inr (Or.inl ⟨h1.symm, rfl⟩), by rw [← h2]; rfl⟩
      · exact ⟨['+'], Or.inr (Or.inr ⟨h1.symm, rfl⟩), by rw [← h2]; rfl⟩
    · push_neg at hm
      have he : signSplit (c :: rest) = (none, c :: rest) := by
        simp [signSplit, hm.1, hm.2]
      rw [he] at h
      obtain ⟨h1, h2⟩ := Prod.mk.injEq .. |>.mp h
      exact ⟨[], Or.inl ⟨h1.symm, rfl⟩, by rw [← h2]; rfl⟩

theorem withMinutesMatch_eq (sg : Option Char) (pre : Str)
    (hopt : OptSign sg pre) {m1 m2 s1 s2 : Char}
    (d1 : m1.isDigit) (d2 : m2.isDigit) (d3 : s1.isDigit) (d4 : s2.isDigit) :
    withMinutesMatch (pre ++ [m1, m2, ':', s1, s2]) =
      some (sg, [m1, m2], [s1, s2]) := by
  have hsplit := signSplit_pre sg pre [m1, m2, ':', s1, s2] hopt
    (by
      intro c rest he
      injection he with h1 _
      rw [← h1]
      exact d1)
  simp only [withMinutesMatch, hsplit]
  simp [d1, d2, d3, d4]

theorem withMinutesMatch_inv (s : Str) (g : Option Char × Str × Str)
    (h : withMinutesMatch s = some g) : MatchesWithMinutes s := by
  rw [withMinutesMatch.eq_def] at h
  split at h
  case h_1 sg c1 c2 b c3 c4 heq =>
    split at h
    case isTrue hcond =>
      simp only [Bool.and_eq_true, decide_eq_true_eq] at hcond
      obtain ⟨⟨⟨⟨d1, d2⟩, hb⟩, d3⟩, d4⟩ := hcond
      obtain ⟨pre, hopt, hs⟩ := signSplit_inv s sg _ heq
      subst hb
      exact ⟨sg, pre, c1, c2, c3, c4, hopt, d1, d2, d3, d4, hs⟩
    case isFalse => exact absurd h (by simp)
  case h_2 => exact absurd h (by simp)

theorem withMinutesMatch_none_of_length (s : Str)
    (h : (signSplit s).2.length ≠ 5) : withMinutesMatch s = none := by
  rw [withMinutesMatch.eq_def]
  split
  case h_1 sg c1 c2 b c3 c4 heq => exact absurd (by rw [heq]; rfl) h
  case h_2 => rfl

theorem withHoursMatch_eq (sg : Option Char) (pre : Str)
    (hopt : OptSign sg pre) (hd : Str) (hne : hd ≠ [])
    (hdig : ∀ c ∈ hd, c.isDigit) {m1 m2 s1 s2 : Char}
    (d1 : m1.isDigit) (d2 : m2.isDigit) (d3 : s1.isDigit) (d4 : s2.isDigit) :
    withHoursMatch (pre ++ (hd ++ ':' :: m1 :: m2 :: ':' :: s1 :: [s2])) =
      some (sg, hd, [m1, m2], [s1, s2]) := by
  have hsplit := signSplit_pre sg pre
    (hd ++ ':' :: m1 :: m2 :: ':' :: s1 :: [s2]) hopt
    (by
      intro c rest he
      cases hd with
      | nil => exact absurd rfl hne
      | cons x xs =>
        rw [List.cons_append] at he
        injection he with h1 _
        rw [← h1]
        exact hdig x (by simp))
  have htw := takeWhile_digits_append hd hdig ':' (by decide)
    (m1 :: m2 :: ':' :: s1 :: [s2])
  simp only [withHoursMatch, hsplit, htw.1, htw.2]
  simp [hne, d1, d2, d3, d4]

theorem withHoursMatch_inv (s : Str) (g : Option Char × Str × Str × Str)
    (h : withHoursMatch s = some g) : MatchesWithHours s := by
  rw [withHoursMatch.eq_def] at h
  simp only [] at h
  split at h
  case h_1 a c1 c2 b c3 c4 heq =>
    split at h
    case isTrue hcond =>
      simp only [Bool.and_eq_true, decide_eq_true_eq] at hcond
      obtain ⟨⟨⟨⟨⟨⟨hne, ha⟩, d1⟩, d2⟩, hb⟩, d3⟩, d4⟩ := hcond
      obtain ⟨pre, hopt, hs⟩ := signSplit_inv s (signSplit s).1 (signSplit s).2
        (Prod.mk.eta).symm
      subst ha hb
      set r := (signSplit s).2 with hrdef
      refine ⟨(signSplit s).1, pre, r.takeWhile Char.isDigit,
        c1, c2, c3, c4, hopt, hne, ?_, d1, d2, d3, d4, ?_⟩
      · intro c hc
        exact List.mem_takeWhile_imp hc
      · rw [hs]
        conv_lhs => rw [← List.takeWhile_append_dropWhile Char.isDigit r]
        rw [heq]
        simp
    case isFalse => exact absurd h (by simp)
  case h_2 => exact absurd h (by simp)

/-- C1: each string accepted by one of the three offset grammars is parsed
by `total_seconds` to that grammar's value: the signed integer itself for
seconds-only, sign × (minutes×60 + seconds) for `MM:SS`, and
sign × (hours×3600 + minutes×60 + seconds) for `H+:MM:SS`, a missing sign
counting as positive; the five example evaluations hold. -/
theorem claim_C1_offset_grammars :
    (∀ (sg : Option Char) (pre ds : Str), OptSign sg pre → ds ≠ [] →
      (∀ c ∈ ds, c.isDigit) →
      total_seconds (pre ++ ds) = some (signVal sg * parseNat ds)) ∧
    (∀ (sg : Option Char) (pre : Str) (m1 m2 s1 s2 : Char), OptSign sg pre →
      m1.isDigit → m2.isDigit → s1.isDigit → s2.isDigit →
      total_seconds (pre ++ [m1, m2, ':', s1, s2]) =
        some (signVal sg * ((parseNat [m1, m2] : Int) * 60 +
          (parseNat [s1, s2] : Int)))) ∧
    (∀ (sg : Option Char) (pre hd : Str) (m1 m2 s1 s2 : Char), OptSign sg pre →
      hd ≠ [] → (∀ c ∈ hd, c.isDigit) →
      m1.isDigit → m2.isDigit → s1.isDigit → s2.isDigit →
      total_seconds (pre ++ (hd ++ ':' :: m1 :: m2 :: ':' :: s1 :: [s2])) =
        some (signVal sg * ((parseNat hd : Int) * 3600 +
          (parseNat [m1, m2] : Int) * 60 + (parseNat [s1, s2] : Int)))) ∧
    (total_seconds (strL "02:10:39") = some 7839 ∧
     total_seconds (strL "01:10") = some 70 ∧
     total_seconds (strL "120") = some 120 ∧
     total_seconds (strL "-01:02:03") = some (-3723) ∧
     total_seconds (strL "+03:55") = some 235) := by
  refine ⟨?_, ?_, ?_, by decide, by decide, by decide, by decide, by decide⟩
  · intro sg pre ds hopt hne hall
    rw [total_seconds, if_pos (onlySeconds_intro sg pre ds hopt hne hall)]
    rcases hopt with ⟨e1, e2⟩ | ⟨e1, e2⟩ | ⟨e1, e2⟩ <;> subst e1 <;> subst e2
    · rw [List.nil_append, parseInt_of_digits ds hall]
      simp [signVal]
    · rw [List.cons_append, List.nil_append]
      simp [parseInt, signVal]
    · rw [List.cons_append, List.nil_append]
      simp [parseInt, signVal]
  · intro sg pre m1 m2 s1 s2 hopt d1 d2 d3 d4
    have ho := onlySeconds_false_of_colon (pre ++ [m1, m2, ':', s1, s2])
      (by simp)
    rw [total_seconds, if_neg (by simp [ho]),
      withMinutesMatch_eq sg pre hopt d1 d2 d3 d4]
    simp [signVal, Int.mul_comm]
  · intro sg pre hd m1 m2 s1 s2 hopt hne hdig d1 d2 d3 d4
    have ho := onlySeconds_false_of_colon
      (pre ++ (hd ++ ':' :: m1 :: m2 :: ':' :: s1 :: [s2])) (by simp)
    have hsplit := signSplit_pre sg pre
      (hd ++ ':' :: m1 :: m2 :: ':' :: s1 :: [s2]) hopt
      (by
        intro c rest he
        cases hd with
        | nil => exact absurd rfl hne
        | cons x xs =>
          rw [List.cons_append] at he
          injection he with hx _
          rw [← hx]
          exact hdig x (by simp))
    have hlen : (signSplit
        (pre ++ (hd ++ ':' :: m1 :: m2 :: ':' :: s1 :: [s2]))).2.length ≠ 5 := by
      rw [hsplit]
      simp
    rw [total_seconds, if_neg (by simp [ho]),
      withMinutesMatch_none_of_length _ hlen,
      withHoursMatch_eq sg pre hopt hd hne hdig d1 d2 d3 d4]
    simp [signVal, Int.mul_comm]

/-- Witness for C1 at the hours-grammar input `-01:02:03`. -/
theorem claim_C1_offset_grammars_witness :
    total_seconds (['-'] ++ (['0', '1'] ++ ':' :: '0' :: '2' :: ':' ::
      '0' :: ['3'])) =
      some (signVal (some '-') * ((parseNat ['0', '1'] : Int) * 3600 +
        (parseNat ['0', '2'] : Int) * 60 + (parseNat ['0', '3'] : Int))) :=
  claim_C1_offset_grammars.2.2.1 (some '-') ['-'] ['0', '1'] '0' '2' '0' '3'
    (Or.inr (Or.inl ⟨rfl, rfl⟩)) (by decide) (by decide) (by decide)
    (by decide) (by decide) (by decide)

/-- C7: the offset parser fails exactly on the strings that fully match
none of the three grammars (no partial match, no whitespace tolerance);
every string fully matching some grammar parses successfully. -/
theorem claim_C7_invalid_offset :
    ∀ s : Str, total_seconds s = none ↔
      ¬ (MatchesOnlySeconds s ∨ MatchesWithMinutes s ∨ MatchesWithHours s) := by
  intro s
  constructor
  · intro h hmatch
    rcases hmatch with hm | hm | hm
    · obtain ⟨sg, pre, ds, hopt, hne, hall, heq⟩ := hm
      subst heq
      rw [total_seconds,
        if_pos (onlySeconds_intro sg pre ds hopt hne hall)] at h
      exact Option.noConfusion h
    · obtain ⟨sg, pre, m1, m2, s1, s2, hopt, d1, d2, d3, d4, heq⟩ := hm
      subst heq
      rw [total_seconds] at h
      by_cases ho : onlySecondsMatch (pre ++ [m1, m2, ':', s1, s2]) = true
      · rw [if_pos ho] at h
        exact Option.noConfusion h
      · rw [if_neg ho, withMinutesMatch_eq sg pre hopt d1 d2 d3 d4] at h
        simp at h
    · obtain ⟨sg, pre, hd, m1, m2, s1, s2, hopt, hne, hdig, d1, d2, d3, d4,
        heq⟩ := hm
      subst heq
      rw [List.append_assoc] at h
      rw [total_seconds] at h
      by_cases ho : onlySecondsMatch
          (pre ++ (hd ++ ':' :: m1 :: m2 :: ':' :: s1 :: [s2])) = true
      · rw [if_pos ho] at h
        exact Option.noConfusion h
      · rw [if_neg ho] at h
        cases e2 : withMinutesMatch
            (pre ++ (hd ++ ':' :: m1 :: m2 :: ':' :: s1 :: [s2])) with
        | some g =>
          rw [e2] at h
          simp at h
        | none =>
          rw [e2, withHoursMatch_eq sg pre hopt hd hne hdig d1 d2 d3 d4] at h
          simp at h
  · intro hnone
    push_neg at hnone
    obtain ⟨h1, h2, h3⟩ := hnone
    have ho : onlySecondsMatch s = false := by
      cases e : onlySecondsMatch s
      · rfl
      · exact absurd (onlySeconds_elim s e) h1
    rw [total_seconds, if_neg (by simp [ho])]
    cases e2 : withMinutesMatch s with
    | some g => exact absurd (withMinutesMatch_inv s g e2) h2
    | none =>
      cases e3 : withHoursMatch s with
      | some g => exact absurd (withHoursMatch_inv s g e3) h3
      | none => simp [e2, e3]

/-- Witness for C7: `+03:55` matches the minutes grammar, so the parser
does not fail on it. -/
theorem claim_C7_invalid_offset_witness :
    ¬ total_seconds (strL "+03:55") = none :=
  fun e => (claim_C7_invalid_offset (strL "+03:55")).mp e
    (Or.inr (Or.inl ⟨some '+', ['+'], '0', '3', '5', '5',
      Or.inr (Or.inr ⟨rfl, rfl⟩), by decide, by decide, by decide, by decide,
      by decide⟩))

/-- C8: on every line that does not begin with an `H+:MM:SS` timestamp
followed immediately by `:` or `=`, `offset_line` fails instead of
returning a string. -/
theorem claim_C8_malformed_fails :
    ∀ (line : Str) (off : Int), ¬ MatchesSubtitleLine line →
      offset_line line off = none := by
  intro line off hnot
  cases e : subtitleLineMatch line with
  | none => rw [offset_line, e]; rfl
  | some g =>
    exfalso
    obtain ⟨ts, sep, content⟩ := g
    obtain ⟨hd, c1, c2, c3, c4, tail, hne, hdig, hd1, hd2, hd3, hd4, hsep,
      hlineeq, _, _⟩ := subtitleLineMatch_inv e
    exact hnot ⟨hd, c1, c2, c3, c4, sep, tail, hne, hdig, hd1, hd2, hd3, hd4,
      hsep, hlineeq⟩

/-- Witness for C8 at the malformed line `hello` (non-digit timestamp). -/
theorem claim_C8_malformed_fails_witness :
    offset_line (strL "hello") 0 = none :=
  claim_C8_malformed_fails (strL "hello") 0 (by
    intro hmatch
    obtain ⟨hd, c1, c2, c3, c4, sep, tail, hne, hdig, _, _, _, _, _, heq⟩ :=
      hmatch
    cases hd with
    | nil => exact hne rfl
    | cons x xs =>
      rw [List.cons_append] at heq
      have h2 : ('h' :: strL "ello" : Str) =
          x :: (xs ++ ':' :: c1 :: c2 :: ':' :: c3 :: c4 :: sep :: tail) := heq
      injection h2 with hx _
      have hdx := hdig x (by simp)
      rw [← hx] at hdx
      exact absurd hdx (by decide))
